import Mathlib

/-!
Verification of the grblesp reporting and numeric-decoding core.

Shallow embedding of `src/lib/grbl/src/nuts_bolts.cpp` (`read_float`) and
`src/lib/grbl/src/report.cpp` (`report_util_axis_values`,
`report_status_message`, `report_ngc_parameters`, and the throttle-counter
logic of `report_realtime_status`), together with theorems settling the
frozen claims about them.

Modelling conventions:
* C strings become `List Char`; reading past the end of the list yields the
  NUL terminator, as in C.  `unsigned char` arithmetic is `% 256`.
* `uint32_t` arithmetic is `% 2 ^ 32`; the `uint8_t` digit counter is
  `% 256`.  The exponent counter (`int88_t`, a signed integer type whose
  typedef is not part of the two source files) is modelled as `Int`.
* `float` arithmetic is modelled by exact rational arithmetic (`ℚ`): the
  multiply loops of `read_float` are translated literally, and the phrase
  "within floating-point rounding tolerance" of the specification becomes
  exact equality in the rational model.
* Functions that send frames (`grbl_send`) are modelled as returning the
  list of frames sent, each frame a `List Char`.
-/

namespace Grblesp

/-! ## nuts_bolts.cpp: read_float -/

/-- Maximum number of digits accepted into the accumulator
(`#define MAX_INT_DIGITS 8` in nuts_bolts.cpp). -/
def MAX_INT_DIGITS : Nat := 8

/-- Modulus of `uint32_t` arithmetic. -/
def UINT32_MOD : Nat := 4294967296

/-- The byte value of a character, as the C `unsigned char` sees it. -/
def byteOf (c : Char) : Nat := c.toNat % 256

/-- The value `current_char -= '0'` computed in `unsigned char`
arithmetic: `(byte - 48) mod 256`, written with `+ 208` to stay in `Nat`. -/
def dsub (c : Char) : Nat := (byteOf c + 208) % 256

/-- The local scan variables of `read_float`'s digit loop:
`uint32_t integer_value`, `int88_t exponent`, `uint8_t num_digits`,
`bool is_decimal`. -/
structure ScanState where
  integer_value : Nat
  exponent : Int
  num_digits : Nat
  is_decimal : Bool
deriving DecidableEq, Repr

/-- One execution of the digit branch of `read_float`'s loop body
(nuts_bolts.cpp lines 58-65) on the already-subtracted digit value `d`. -/
def stepDigit (s : ScanState) (d : Nat) : ScanState :=
  let nd := (s.num_digits + 1) % 256
  if nd ≤ MAX_INT_DIGITS then
    { integer_value := (s.integer_value * 10 + d) % UINT32_MOD
      exponent := if s.is_decimal then s.exponent - 1 else s.exponent
      num_digits := nd
      is_decimal := s.is_decimal }
  else
    { integer_value := s.integer_value
      exponent := if s.is_decimal then s.exponent else s.exponent + 1
      num_digits := nd
      is_decimal := s.is_decimal }

/-- The `while(1)` scan loop of `read_float` (nuts_bolts.cpp lines 56-72),
acting on the characters still ahead of the pointer.  Returns the final
scan state and the number of characters consumed; the character at the
returned offset is the terminator, which the loop does not consume.
An empty remainder is the C string's NUL terminator, which breaks the
loop (`'\x00' - '0'` is 208 as an unsigned char). -/
def scanLoop : List Char → ScanState → ScanState × Nat
  | [], s => (s, 0)
  | c :: cs, s =>
    if dsub c ≤ 9 then
      let r := scanLoop cs (stepDigit s (dsub c))
      (r.1, r.2 + 1)
    else if dsub c = 254 ∧ s.is_decimal = false then
      let r := scanLoop cs { s with is_decimal := true }
      (r.1, r.2 + 1)
    else (s, 0)

/-- The `while (exponent <= -2) { float_value *= 0.01; exponent += 2; }`
loop of `read_float` (nuts_bolts.cpp lines 84-87), written with a fuel
argument so the recursion is structural; `read_float` passes enough fuel
for the loop to run to completion. -/
def mulPow01Aux : ℚ → Int → Nat → ℚ × Int
  | v, e, 0 => (v, e)
  | v, e, fuel + 1 =>
    if e ≤ -2 then mulPow01Aux (v * (1 / 100)) (e + 2) fuel else (v, e)

/-- The `do { float_value *= 10.0; } while (--exponent > 0);` loop of
`read_float` (nuts_bolts.cpp lines 91-93), with fuel. -/
def mulPow10Aux : ℚ → Int → Nat → ℚ
  | v, _, 0 => v * 10
  | v, e, fuel + 1 =>
    if e - 1 > 0 then mulPow10Aux (v * 10) (e - 1) fuel else v * 10

/-- Conversion of the accumulated integer and exponent to the final value
(nuts_bolts.cpp lines 77-95): skip everything when the value is zero,
else divide by 100 while the exponent is at most -2, then by 10 once if
it is still negative, or multiply by 10 exponent-many times. -/
def applyExponent (v : ℚ) (e : Int) : ℚ :=
  if v = 0 then v
  else
    let p := mulPow01Aux v e (-e).toNat
    if p.2 < 0 then p.1 * (1 / 10)
    else if p.2 > 0 then mulPow10Aux p.1 p.2 p.2.toNat
    else p.1

/-- The initial `+`/`-` capture of `read_float` (nuts_bolts.cpp lines
40-49): returns `is_negative`, the number of sign characters consumed,
and the remaining characters.  An empty remainder stands for the NUL
terminator, which is neither sign. -/
def signScan (rest : List Char) : Bool × Nat × List Char :=
  match rest with
  | [] => (false, 0, [])
  | c :: cs =>
    if byteOf c = 45 then (true, 1, cs)
    else if byteOf c = 43 then (false, 1, cs)
    else (false, 0, c :: cs)

/-- Embedding of `read_float(line, char_counter, float_ptr)`
(nuts_bolts.cpp lines 34-107).  `none` is the `false` return, on which the
C function has written neither `*char_counter` nor `*float_ptr`;
`some (cc, v)` is the `true` return with the updated cursor `cc` (the
index of the first unconsumed character) and decoded value `v`. -/
def read_float (line : List Char) (char_counter : Nat) : Option (Nat × ℚ) :=
  let sign := signScan (line.drop char_counter)
  let scanned := scanLoop sign.2.2 ⟨0, 0, 0, false⟩
  if scanned.1.num_digits = 0 then none
  else
    let float_value := applyExponent (scanned.1.integer_value : ℚ) scanned.1.exponent
    some (char_counter + sign.2.1 + scanned.2,
          if sign.1 then -float_value else float_value)

/-! ## Digit values and numeral values -/

/-- Value of a list of decimal digit values, most significant first. -/
def natVal (l : List Nat) : Nat := l.foldl (fun a d => a * 10 + d) 0

/-- The digit values (`c - '0'` as unsigned char) of a character list. -/
def digitsOf (cs : List Char) : List Nat := cs.map dsub

/-- Mathematical value of a run of decimal digit characters. -/
def natOfDigits (cs : List Char) : Nat := natVal (digitsOf cs)

/-- A character whose byte is an ASCII decimal digit `'0'..'9'`. -/
def isDigitCh (c : Char) : Prop := 48 ≤ byteOf c ∧ byteOf c ≤ 57

/-- The scan starting at `t` reads zero digits: either the line ends, or
the first character terminates the scan immediately, or it is a decimal
point followed by the end of the line or a non-digit. -/
def noDigitsAhead (t : List Char) : Prop :=
  t = [] ∨
  (∃ c t2, t = c :: t2 ∧ ¬ dsub c ≤ 9 ∧ dsub c ≠ 254) ∨
  (∃ c t2, t = c :: t2 ∧ dsub c = 254 ∧
    (t2 = [] ∨ ∃ c2 t3, t2 = c2 :: t3 ∧ ¬ dsub c2 ≤ 9))

/-- Mathematical value of the numeral `intD . fracD` (integer digits,
decimal point, fractional digits). -/
def numeralValue (intD fracD : List Char) : ℚ :=
  (natOfDigits intD : ℚ) + (natOfDigits fracD : ℚ) / 10 ^ fracD.length

instance (c : Char) : Decidable (isDigitCh c) :=
  inferInstanceAs (Decidable (_ ∧ _))

/-! ## report.cpp: axis-value formatting -/

/-- Decimal digit characters of `n`, least significant first, with a fuel
argument (`n` itself is always enough fuel). -/
def natDigitsRev : Nat → Nat → List Char
  | 0, _ => []
  | fuel + 1, n =>
    if n = 0 then [] else Nat.digitChar (n % 10) :: natDigitsRev fuel (n / 10)

/-- Decimal rendering of a natural number, as `sprintf`'s `%d` produces
for non-negative values. -/
def natRepr (n : Nat) : List Char :=
  if n = 0 then ['0'] else (natDigitsRev n n).reverse

/-- Exactly `prec` fractional digit characters of `m`, most significant
first: the zero-padded fractional part of `%.3f` / `%.4f`. -/
def fracDigits (m prec : Nat) : List Char :=
  (List.range prec).map fun i => Nat.digitChar (m / 10 ^ (prec - 1 - i) % 10)

/-- The fixed-point rendering `sprintf("%4.<prec>f", q)`: scale by
`10 ^ prec`, round to the nearest integer, then print sign, integer part,
the decimal point and exactly `prec` fractional digits.  (The minimum
width 4 of the source's format strings never pads, since any output with
3 or 4 decimals is at least 5 characters; the claims settled here count
characters only, so the exact tie-breaking of the C library's rounding is
immaterial.) -/
def formatFixed (q : ℚ) (prec : Nat) : List Char :=
  let scaled : Int := round (q * 10 ^ prec)
  (if scaled < 0 then ['-'] else []) ++
    natRepr (scaled.natAbs / 10 ^ prec) ++
    '.' :: fracDigits (scaled.natAbs % 10 ^ prec) prec

/-- Millimetres per inch (`MM_PER_INCH`, 25.4). -/
def MM_PER_INCH : ℚ := 254 / 10

/-- One axis value as rendered by `report_util_axis_values` (report.cpp
lines 100-113): the value times the unit conversion (1 in metric,
1/25.4 when `BITFLAG_REPORT_INCHES` is set), with 4 decimals in imperial
mode and 3 in metric mode. -/
def axisValueString (v : ℚ) (inches : Bool) : List Char :=
  formatFixed (v * (if inches then 1 / MM_PER_INCH else 1))
    (if inches then 4 else 3)

/-- Embedding of `report_util_axis_values(axis_value, report)`
(report.cpp lines 97-120): the rendered values joined by a comma after
every value except the last (`index < N_AXIS - 1`). -/
def report_util_axis_values (axis_value : List ℚ) (inches : Bool) : List Char :=
  match axis_value with
  | [] => []
  | [v] => axisValueString v inches
  | v :: rest => axisValueString v inches ++ ',' :: report_util_axis_values rest inches

/-- Number of characters after the last decimal point of a rendered
value. -/
def decimalsAfterDot (s : List Char) : Nat :=
  (s.reverse.takeWhile fun c => c != '.').length

/-- Modelled from the spec: `N_AXIS`, the number of machine axes, is set
in configuration headers that are not among the two source files; the
spec's frame grammar `MPos:<f>,<f>,<f>` shows the standard three-axis
build. -/
def N_AXIS : Nat := 3

/-! ## report.cpp: status and parameter reports -/

/-- The CRLF frame terminator. -/
def crlf : List Char := ['\r', '\n']

/-- Modelled from the spec: `STATUS_OK` is the zero status code whose
acknowledgement is `ok`; its declaration lives in a header outside the
two source files. -/
def STATUS_OK : Nat := 0

/-- Modelled from the spec: `STATUS_SETTING_READ_FAIL` is the status code
for a failed stored-setting read (7 in grbl's error-code table); its
declaration lives in a header outside the two source files.  Only its
being nonzero matters to the claims settled here. -/
def STATUS_SETTING_READ_FAIL : Nat := 7

/-- Embedding of `report_status_message(status_code, client)` (report.cpp
lines 128-136): the acknowledgement frame, `ok` for `STATUS_OK` and
`error:<code>` otherwise. -/
def report_status_message (status_code : Nat) : List Char :=
  if status_code = STATUS_OK then ['o', 'k'] ++ crlf
  else ['e', 'r', 'r', 'o', 'r', ':'] ++ natRepr status_code ++ crlf

/-- Modelled from the spec: `SETTING_INDEX_NCOORD` is the index of the
last stored coordinate frame; the spec's record sequence G54..G59, G28,
G30 gives indices 0..7, so the bound is 7. -/
def SETTING_INDEX_NCOORD : Nat := 7

/-- The `G`-name of stored coordinate frame `k` (report.cpp lines
288-295): `28` for index 6, `30` for index 7, else `k + 54` (G54..G59). -/
def ngcFrameName (k : Nat) : List Char :=
  if k = 6 then ['2', '8'] else if k = 7 then ['3', '0'] else natRepr (k + 54)

/-- The coordinate-frame loop of `report_ngc_parameters` (report.cpp
lines 282-300): on a failed `settings_read_coord_data` it aborts with
`none` (the C code sends the error acknowledgement and returns,
discarding the partially built buffer); otherwise it appends each
`[G..:<values>]` record to the accumulator. -/
def ngcLoop (readCoord : Nat → Option (List ℚ)) (inches : Bool) :
    List Nat → List Char → Option (List Char)
  | [], acc => some acc
  | k :: ks, acc =>
    match readCoord k with
    | none => none
    | some coordinate_data =>
      ngcLoop readCoord inches ks
        (acc ++ ['[', 'G'] ++ ngcFrameName k ++ [':'] ++
          report_util_axis_values coordinate_data inches ++ [']'] ++ crlf)

/-- Embedding of `report_probe_parameters(client)` (report.cpp lines
251-270): the `[PRB:<values>:<flag>]` frame. -/
def report_probe_parameters (probe_position : List ℚ) (probe_succeeded : Nat)
    (inches : Bool) : List Char :=
  ['[', 'P', 'R', 'B', ':'] ++ report_util_axis_values probe_position inches ++
    [':'] ++ natRepr probe_succeeded ++ [']'] ++ crlf

/-- Embedding of `report_ngc_parameters(client)` (report.cpp lines
273-318) as the list of frames sent, in order.  On a coordinate-frame
read failure only the error acknowledgement is sent; otherwise one frame
holding all coordinate records plus the `[G92:..]` and `[TLO:..]` records
(the TLO uses 3 decimals in both unit modes, scaled by 1/25.4 in
imperial mode), followed by the probe-parameters frame. -/
def report_ngc_parameters (readCoord : Nat → Option (List ℚ))
    (coord_offset : List ℚ) (tool_length_offset : ℚ) (inches : Bool)
    (probe_position : List ℚ) (probe_succeeded : Nat) : List (List Char) :=
  match ngcLoop readCoord inches (List.range (SETTING_INDEX_NCOORD + 1)) [] with
  | none => [report_status_message STATUS_SETTING_READ_FAIL]
  | some ngc_report =>
      [ngc_report ++ ['[', 'G', '9', '2', ':'] ++
         report_util_axis_values coord_offset inches ++ [']'] ++ crlf ++
         ['[', 'T', 'L', 'O', ':'] ++
         formatFixed (if inches then tool_length_offset * (1 / MM_PER_INCH)
                      else tool_length_offset) 3 ++ [']'] ++ crlf,
       report_probe_parameters probe_position probe_succeeded inches]

/-! ## report.cpp: realtime-status throttle counters -/

/-- Modelled from the spec and the standard grbl system.h (not among the
two source files): the run-state bitmask values used by
`report_realtime_status`. -/
def STATE_IDLE : Nat := 0

/-- Run-state bit: alarm. -/
def STATE_ALARM : Nat := 1

/-- Run-state bit: check mode. -/
def STATE_CHECK_MODE : Nat := 2

/-- Run-state bit: homing. -/
def STATE_HOMING : Nat := 4

/-- Run-state bit: cycle (Run). -/
def STATE_CYCLE : Nat := 8

/-- Run-state bit: hold. -/
def STATE_HOLD : Nat := 16

/-- Run-state bit: jog. -/
def STATE_JOG : Nat := 32

/-- Run-state bit: safety door. -/
def STATE_SAFETY_DOOR : Nat := 64

/-- Run-state bit: sleep. -/
def STATE_SLEEP : Nat := 128

/-- Modelled from the spec: the four throttle refresh intervals are
`#define`s in config.h, which is not among the two source files; these
are the standard grbl values.  Their salient relation — the busy counts
are the larger ones — matches the in-source comments `// Reset counter
for slow refresh` on both busy branches (report.cpp lines 651, 664). -/
def REPORT_WCO_REFRESH_BUSY_COUNT : Nat := 30

/-- Work-offset refresh interval when idle (see
`REPORT_WCO_REFRESH_BUSY_COUNT`). -/
def REPORT_WCO_REFRESH_IDLE_COUNT : Nat := 10

/-- Override refresh interval when busy (see
`REPORT_WCO_REFRESH_BUSY_COUNT`). -/
def REPORT_OVR_REFRESH_BUSY_COUNT : Nat := 20

/-- Override refresh interval when idle (see
`REPORT_WCO_REFRESH_BUSY_COUNT`). -/
def REPORT_OVR_REFRESH_IDLE_COUNT : Nat := 10

/-- The two persistent throttle counters of `sys`
(`sys.report_wco_counter` and `sys.report_ovr_counter`, `uint8_t` in the
source), modelled as integers so that non-negativity is a provable
property rather than a typing artifact; the code guards every decrement
with `> 0`, so no unsigned wraparound can occur. -/
structure ThrottleState where
  report_wco_counter : Int
  report_ovr_counter : Int
deriving DecidableEq, Repr

/-- The busy-state test of report.cpp lines 650 and 663:
`sys.state & (STATE_HOMING | STATE_CYCLE | STATE_HOLD | STATE_JOG |
STATE_SAFETY_DOOR)`. -/
def isBusyState (state : Nat) : Bool :=
  state &&& (STATE_HOMING ||| STATE_CYCLE ||| STATE_HOLD ||| STATE_JOG |||
    STATE_SAFETY_DOOR) != 0

/-- Result of one `report_realtime_status` call, restricted to what the
throttle claims concern: whether the `|WCO:` and `|Ov:` fields were
appended to the frame, and the updated counters. -/
structure RtThrottleResult where
  wcoEmitted : Bool
  ovrEmitted : Bool
  sys : ThrottleState
deriving DecidableEq, Repr

/-- Embedding of the throttle logic of `report_realtime_status`
(report.cpp lines 647-683), in source order: first the
`REPORT_FIELD_WORK_COORD_OFFSET` block — decrement a positive counter and
skip the field, or emit the field, reset the counter to the busy or idle
interval minus one, and set the override counter to 1 if it was zero
("Set override on next report") — then the `REPORT_FIELD_OVERRIDES`
block — decrement a positive counter and skip, or emit and reset to the
busy or idle interval minus one. -/
def realtimeThrottleStep (state : Nat) (s : ThrottleState) : RtThrottleResult :=
  let wcoBlock : Bool × Int × Int :=
    if s.report_wco_counter > 0 then
      (false, s.report_wco_counter - 1, s.report_ovr_counter)
    else
      (true,
       if isBusyState state then (REPORT_WCO_REFRESH_BUSY_COUNT : Int) - 1
       else (REPORT_WCO_REFRESH_IDLE_COUNT : Int) - 1,
       if s.report_ovr_counter = 0 then 1 else s.report_ovr_counter)
  let ovrBlock : Bool × Int :=
    if wcoBlock.2.2 > 0 then (false, wcoBlock.2.2 - 1)
    else
      (true,
       if isBusyState state then (REPORT_OVR_REFRESH_BUSY_COUNT : Int) - 1
       else (REPORT_OVR_REFRESH_IDLE_COUNT : Int) - 1)
  ⟨wcoBlock.1, ovrBlock.1, ⟨wcoBlock.2.1, ovrBlock.2⟩⟩

/-- Trajectory of the throttle counters from the startup state (both
counters initialized to zero) under repeated `report_realtime_status`
calls in a fixed controller state. -/
def throttleTraj (state : Nat) : Nat → ThrottleState
  | 0 => ⟨0, 0⟩
  | n + 1 => (realtimeThrottleStep state (throttleTraj state n)).sys

/-- Whether the `|Ov:` field is emitted on call `n` (0-indexed) of the
trajectory from the startup state. -/
def ovrEmittedAt (state : Nat) (n : Nat) : Bool :=
  (realtimeThrottleStep state (throttleTraj state n)).ovrEmitted

/-- The ten states of the steady idle cycle of the two counters, entered
after the first call from the startup state. -/
def idleCycle (j : Nat) : ThrottleState :=
  [(⟨9, 0⟩ : ThrottleState), ⟨8, 9⟩, ⟨7, 8⟩, ⟨6, 7⟩, ⟨5, 6⟩,
    ⟨4, 5⟩, ⟨3, 4⟩, ⟨2, 3⟩, ⟨1, 2⟩, ⟨0, 1⟩].getD j ⟨0, 0⟩

theorem ScanState.ext4 {s t : ScanState} (h1 : s.integer_value = t.integer_value)
    (h2 : s.exponent = t.exponent) (h3 : s.num_digits = t.num_digits)
    (h4 : s.is_decimal = t.is_decimal) : s = t := by
  cases s; cases t; simp_all

theorem byteOf_lt (c : Char) : byteOf c < 256 := Nat.mod_lt _ (by omega)

theorem dsub_le_nine_iff (c : Char) : dsub c ≤ 9 ↔ isDigitCh c := by
  have := byteOf_lt c
  unfold dsub isDigitCh
  omega

theorem dsub_of_digit {c : Char} (h : isDigitCh c) : dsub c = byteOf c - 48 := by
  have := byteOf_lt c
  unfold dsub
  unfold isDigitCh at h
  omega

theorem dsub_le_nine_of_digit {c : Char} (h : isDigitCh c) : dsub c ≤ 9 :=
  (dsub_le_nine_iff c).mpr h

theorem natVal_aux (l : List Nat) :
    ∀ a : Nat, l.foldl (fun a d => a * 10 + d) a = a * 10 ^ l.length + natVal l := by
  induction l with
  | nil => intro a; simp [natVal]
  | cons d l ih =>
    intro a
    simp only [List.foldl_cons, List.length_cons, natVal] at *
    rw [ih (a * 10 + d), Nat.zero_mul, Nat.zero_add, ih d]
    ring

theorem natVal_cons (d : Nat) (l : List Nat) :
    natVal (d :: l) = d * 10 ^ l.length + natVal l := by
  simpa [natVal] using natVal_aux l d

theorem natVal_append (l₁ l₂ : List Nat) :
    natVal (l₁ ++ l₂) = natVal l₁ * 10 ^ l₂.length + natVal l₂ := by
  simpa [natVal, List.foldl_append] using natVal_aux l₂ (natVal l₁)

theorem natVal_lt (l : List Nat) (h : ∀ d ∈ l, d ≤ 9) :
    natVal l < 10 ^ l.length := by
  induction l with
  | nil => simp [natVal]
  | cons d l ih =>
    have hd : d ≤ 9 := h d (by simp)
    have hl : natVal l < 10 ^ l.length := ih fun x hx => h x (by simp [hx])
    rw [natVal_cons]
    calc d * 10 ^ l.length + natVal l
        < d * 10 ^ l.length + 10 ^ l.length := by omega
      _ = (d + 1) * 10 ^ l.length := by ring
      _ ≤ 10 * 10 ^ l.length := by
          have : d + 1 ≤ 10 := by omega
          exact Nat.mul_le_mul_right _ this
      _ = 10 ^ (l.length + 1) := by ring
      _ = 10 ^ (d :: l).length := by simp

/-! ## Characterisation of the scan loop -/

theorem scanLoop_digits (ds : List Char) (rest : List Char) (s : ScanState)
    (h : ∀ c ∈ ds, dsub c ≤ 9) :
    scanLoop (ds ++ rest) s =
      ((scanLoop rest (ds.foldl (fun t c => stepDigit t (dsub c)) s)).1,
       (scanLoop rest (ds.foldl (fun t c => stepDigit t (dsub c)) s)).2 + ds.length) := by
  induction ds generalizing s with
  | nil => simp
  | cons c ds ih =>
    have hc : dsub c ≤ 9 := h c (by simp)
    have hrest : ∀ x ∈ ds, dsub x ≤ 9 := fun x hx => h x (by simp [hx])
    simp only [List.cons_append, scanLoop, if_pos hc, List.foldl_cons, List.append_eq]
    rw [ih _ hrest]
    simp only [List.length_cons]
    rw [Prod.ext_iff]
    exact ⟨rfl, by omega⟩

theorem scanLoop_dot (c : Char) (rest : List Char) (s : ScanState)
    (hdec : s.is_decimal = false) (hc : dsub c = 254) :
    scanLoop (c :: rest) s =
      ((scanLoop rest { s with is_decimal := true }).1,
       (scanLoop rest { s with is_decimal := true }).2 + 1) := by
  have h9 : ¬ dsub c ≤ 9 := by omega
  simp [scanLoop, h9, hc, hdec]

theorem scanLoop_stop (c : Char) (rest : List Char) (s : ScanState)
    (h9 : ¬ dsub c ≤ 9) (hnd : ¬ (dsub c = 254 ∧ s.is_decimal = false)) :
    scanLoop (c :: rest) s = (s, 0) := by
  simp only [scanLoop, if_neg h9, if_neg hnd]

theorem foldl_stepDigit_spec (l : List Nat) (s : ScanState)
    (hd : ∀ d ∈ l, d ≤ 9)
    (hn : s.num_digits + l.length ≤ 255)
    (hiv : s.integer_value < 10 ^ (min s.num_digits MAX_INT_DIGITS)) :
    l.foldl stepDigit s =
      { integer_value :=
          s.integer_value * 10 ^ (min l.length (MAX_INT_DIGITS - s.num_digits)) +
            natVal (l.take (min l.length (MAX_INT_DIGITS - s.num_digits))),
        exponent := s.exponent +
          (if s.is_decimal then
              -((min l.length (MAX_INT_DIGITS - s.num_digits) : Nat) : Int)
           else ((l.length - min l.length (MAX_INT_DIGITS - s.num_digits) : Nat) : Int)),
        num_digits := s.num_digits + l.length,
        is_decimal := s.is_decimal } := by
  induction l generalizing s with
  | nil =>
    cases s with
    | mk iv e n dec =>
      simp [natVal]
  | cons d l ih =>
    have hd0 : d ≤ 9 := hd d (by simp)
    have hdl : ∀ x ∈ l, x ≤ 9 := fun x hx => hd x (by simp [hx])
    simp only [List.foldl_cons, List.length_cons] at *
    by_cases h8 : s.num_digits < MAX_INT_DIGITS
    · -- accepted digit
      have hm : (s.num_digits + 1) % 256 = s.num_digits + 1 :=
        Nat.mod_eq_of_lt (by omega)
      have hmin : min s.num_digits MAX_INT_DIGITS = s.num_digits :=
        Nat.min_eq_left (by omega)
      rw [hmin] at hiv
      have hivd : s.integer_value * 10 + d < 10 ^ (s.num_digits + 1) := by
        have : s.integer_value * 10 + d ≤ (10 ^ s.num_digits - 1) * 10 + 9 := by
          have h1 : s.integer_value ≤ 10 ^ s.num_digits - 1 := by omega
          have h2 : s.integer_value * 10 ≤ (10 ^ s.num_digits - 1) * 10 :=
            Nat.mul_le_mul_right _ h1
          omega
        have hp : 1 ≤ 10 ^ s.num_digits := Nat.one_le_pow _ _ (by omega)
        calc s.integer_value * 10 + d ≤ (10 ^ s.num_digits - 1) * 10 + 9 := this
          _ < 10 ^ s.num_digits * 10 := by omega
          _ = 10 ^ (s.num_digits + 1) := by ring
      have hivm : (s.integer_value * 10 + d) % UINT32_MOD = s.integer_value * 10 + d := by
        apply Nat.mod_eq_of_lt
        calc s.integer_value * 10 + d < 10 ^ (s.num_digits + 1) := hivd
          _ ≤ 10 ^ MAX_INT_DIGITS := Nat.pow_le_pow_right (by omega) (by omega)
          _ < UINT32_MOD := by norm_num [MAX_INT_DIGITS, UINT32_MOD]
      have hstep : stepDigit s d =
          { integer_value := s.integer_value * 10 + d,
            exponent := if s.is_decimal then s.exponent - 1 else s.exponent,
            num_digits := s.num_digits + 1,
            is_decimal := s.is_decimal } := by
        unfold stepDigit
        rw [hm, if_pos (by omega : s.num_digits + 1 ≤ MAX_INT_DIGITS), hivm]
      rw [hstep, ih _ hdl
            (by show s.num_digits + 1 + l.length ≤ 255; omega)
            (by show s.integer_value * 10 + d < 10 ^ (min (s.num_digits + 1) MAX_INT_DIGITS)
                rw [Nat.min_eq_left (by omega : s.num_digits + 1 ≤ MAX_INT_DIGITS)]
                exact hivd)]
      have hk : min (l.length + 1) (MAX_INT_DIGITS - s.num_digits) =
          min l.length (MAX_INT_DIGITS - (s.num_digits + 1)) + 1 := by omega
      have hk' : min l.length (MAX_INT_DIGITS - (s.num_digits + 1)) ≤ l.length :=
        Nat.min_le_left _ _
      rw [hk]
      have htake : (d :: l).take (min l.length (MAX_INT_DIGITS - (s.num_digits + 1)) + 1) =
          d :: l.take (min l.length (MAX_INT_DIGITS - (s.num_digits + 1))) := rfl
      rw [htake, natVal_cons]
      have hlen : (l.take (min l.length (MAX_INT_DIGITS - (s.num_digits + 1)))).length =
          min l.length (MAX_INT_DIGITS - (s.num_digits + 1)) := by
        simp [Nat.min_eq_left hk']
      cases hdec : s.is_decimal <;>
        · simp only [hdec, if_true, if_false, Bool.false_eq_true]
          refine ScanState.mk.injEq _ _ _ _ _ _ _ _ ▸ ⟨?_, ?_, ?_, rfl⟩
          · rw [hlen]; ring
          · push_cast; omega
          · omega
    · -- dropped digit (digit cap reached)
      have hm : (s.num_digits + 1) % 256 = s.num_digits + 1 :=
        Nat.mod_eq_of_lt (by omega)
      have hstep : stepDigit s d =
          { integer_value := s.integer_value,
            exponent := if s.is_decimal then s.exponent else s.exponent + 1,
            num_digits := s.num_digits + 1,
            is_decimal := s.is_decimal } := by
        unfold stepDigit
        rw [hm, if_neg (by omega)]
      have hmin' : min (s.num_digits + 1) MAX_INT_DIGITS = MAX_INT_DIGITS := by omega
      have hmin : min s.num_digits MAX_INT_DIGITS = MAX_INT_DIGITS := by omega
      rw [hstep, ih _ hdl
            (by show s.num_digits + 1 + l.length ≤ 255; omega)
            (by show s.integer_value < 10 ^ (min (s.num_digits + 1) MAX_INT_DIGITS)
                rw [hmin']; rw [hmin] at hiv; exact hiv)]
      have hz' : MAX_INT_DIGITS - (s.num_digits + 1) = 0 := by omega
      have hz : MAX_INT_DIGITS - s.num_digits = 0 := by omega
      rw [hz, hz']
      simp only [Nat.min_zero, Nat.zero_min, pow_zero, List.take_zero]
      cases hdec : s.is_decimal <;>
        · simp only [hdec, if_true, if_false, Bool.false_eq_true]
          refine ScanState.mk.injEq _ _ _ _ _ _ _ _ ▸ ⟨?_, ?_, ?_, rfl⟩
          · simp [natVal]
          · push_cast; omega
          · omega

/-! ## Exact value of the exponent-application loops -/

theorem mulPow01Aux_spec (fuel : Nat) : ∀ (v : ℚ) (e : Int), -e ≤ 2 * (fuel : Int) + 1 →
    (mulPow01Aux v e fuel).1 * (10 : ℚ) ^ (mulPow01Aux v e fuel).2 = v * (10 : ℚ) ^ e ∧
      -1 ≤ (mulPow01Aux v e fuel).2 := by
  induction fuel with
  | zero =>
    intro v e h
    have hx : mulPow01Aux v e 0 = (v, e) := rfl
    rw [hx]
    exact ⟨rfl, by omega⟩
  | succ fuel ih =>
    intro v e h
    by_cases he : e ≤ -2
    · have hx : mulPow01Aux v e (fuel + 1) = mulPow01Aux (v * (1 / 100)) (e + 2) fuel := by
        simp only [mulPow01Aux, if_pos he]
      have hrec := ih (v * (1 / 100)) (e + 2) (by omega)
      rw [hx]
      refine ⟨?_, hrec.2⟩
      rw [hrec.1]
      have h10 : (10 : ℚ) ≠ 0 := by norm_num
      rw [show e + 2 = e + (2 : Nat) by push_cast; ring, zpow_add₀ h10]
      norm_num
      ring
    · have hx : mulPow01Aux v e (fuel + 1) = (v, e) := by
        simp only [mulPow01Aux, if_neg he]
      rw [hx]
      exact ⟨rfl, by omega⟩

theorem mulPow10Aux_spec (fuel : Nat) : ∀ (v : ℚ) (e : Int), 1 ≤ e → e ≤ (fuel : Int) + 1 →
    mulPow10Aux v e fuel = v * (10 : ℚ) ^ e.toNat := by
  induction fuel with
  | zero =>
    intro v e h1 h2
    have : e = 1 := by omega
    subst this
    simp [mulPow10Aux]
  | succ fuel ih =>
    intro v e h1 h2
    by_cases he : e - 1 > 0
    · simp only [mulPow10Aux, if_pos he]
      rw [ih (v * 10) (e - 1) (by omega) (by omega)]
      have : (e - 1).toNat + 1 = e.toNat := by omega
      rw [← this, pow_succ]
      ring
    · have : e = 1 := by omega
      subst this
      simp [mulPow10Aux]

theorem applyExponent_eq (v : ℚ) (e : Int) :
    applyExponent v e = v * (10 : ℚ) ^ e := by
  unfold applyExponent
  by_cases hv : v = 0
  · simp [hv]
  · simp only [if_neg hv]
    obtain ⟨hprod, hge⟩ := mulPow01Aux_spec (-e).toNat v e (by omega)
    set p := mulPow01Aux v e (-e).toNat with hp
    by_cases h1 : p.2 < 0
    · have h2 : p.2 = -1 := by omega
      rw [if_pos h1, ← hprod, h2]
      rw [zpow_neg_one]
      norm_num
    · by_cases h2 : p.2 > 0
      · rw [if_neg h1, if_pos h2,
          mulPow10Aux_spec p.2.toNat p.1 p.2 (by omega) (by omega), ← hprod]
        congr 1
        rw [← zpow_natCast]
        congr 1
        omega
      · have h3 : p.2 = 0 := by omega
        rw [if_neg h1, if_neg h2, ← hprod, h3]
        norm_num

/-! ## The scan loop on a maximal numeral -/

theorem length_digitsOf (cs : List Char) : (digitsOf cs).length = cs.length := by
  simp [digitsOf]

theorem digitsOf_le_nine (cs : List Char) (h : ∀ c ∈ cs, isDigitCh c) :
    ∀ d ∈ digitsOf cs, d ≤ 9 := by
  intro d hd
  obtain ⟨c, hc, rfl⟩ := List.mem_map.mp hd
  exact dsub_le_nine_of_digit (h c hc)

theorem take_min_length (l : List Nat) (n : Nat) :
    l.take (min l.length n) = l.take n := by
  rw [List.take_eq_take]
  omega

theorem scan_int_digits (cs : List Char) (h : ∀ c ∈ cs, isDigitCh c)
    (hn : cs.length ≤ 255) :
    (digitsOf cs).foldl stepDigit ⟨0, 0, 0, false⟩ =
      { integer_value := natVal ((digitsOf cs).take (min cs.length MAX_INT_DIGITS)),
        exponent := ((cs.length - min cs.length MAX_INT_DIGITS : Nat) : Int),
        num_digits := cs.length,
        is_decimal := false } := by
  rw [foldl_stepDigit_spec (digitsOf cs) ⟨0, 0, 0, false⟩ (digitsOf_le_nine cs h)
    (by show 0 + (digitsOf cs).length ≤ 255; rw [length_digitsOf]; omega)
    (by show 0 < 10 ^ (min 0 MAX_INT_DIGITS); simp)]
  refine ScanState.ext4 ?_ ?_ ?_ ?_ <;> dsimp only <;>
    simp [length_digitsOf]

theorem scan_frac_digits (cs : List Char) (iv : Nat) (e : Int) (n : Nat)
    (h : ∀ c ∈ cs, isDigitCh c) (hn : n + cs.length ≤ 255)
    (hiv : iv < 10 ^ (min n MAX_INT_DIGITS)) :
    (digitsOf cs).foldl stepDigit ⟨iv, e, n, true⟩ =
      { integer_value := iv * 10 ^ (min cs.length (MAX_INT_DIGITS - n)) +
          natVal ((digitsOf cs).take (min cs.length (MAX_INT_DIGITS - n))),
        exponent := e - ((min cs.length (MAX_INT_DIGITS - n) : Nat) : Int),
        num_digits := n + cs.length,
        is_decimal := true } := by
  rw [foldl_stepDigit_spec (digitsOf cs) ⟨iv, e, n, true⟩ (digitsOf_le_nine cs h)
    (by show n + (digitsOf cs).length ≤ 255; rw [length_digitsOf]; omega)
    (by show iv < 10 ^ (min n MAX_INT_DIGITS); exact hiv)]
  refine ScanState.ext4 ?_ ?_ ?_ ?_ <;> dsimp only <;>
    simp [length_digitsOf, sub_eq_add_neg]

/-- Effect of the digit/decimal-point scan on a maximal numeral
`intD ++ dotPart ++ fracD` followed by a terminating character (or the end
of the line): the accumulator keeps the first `MAX_INT_DIGITS` digits, the
exponent records the dropped pre-point digits positively and the accepted
post-point digits negatively, and exactly the numeral's characters are
consumed. -/
theorem scanLoop_numeral (intD dotPart fracD rest : List Char)
    (hint : ∀ c ∈ intD, isDigitCh c)
    (hfrac : ∀ c ∈ fracD, isDigitCh c)
    (hdot : dotPart = ['.'] ∨ (dotPart = [] ∧ fracD = []))
    (hbound : intD.length + fracD.length ≤ 255)
    (hterm : rest = [] ∨ ∃ c rest2, rest = c :: rest2 ∧ ¬ dsub c ≤ 9 ∧
              (dotPart = ['.'] ∨ dsub c ≠ 254)) :
    scanLoop (intD ++ dotPart ++ fracD ++ rest) ⟨0, 0, 0, false⟩ =
      ({ integer_value := natOfDigits ((intD ++ fracD).take MAX_INT_DIGITS),
         exponent := ((intD.length - MAX_INT_DIGITS : Nat) : Int) -
           ((min fracD.length (MAX_INT_DIGITS - intD.length) : Nat) : Int),
         num_digits := intD.length + fracD.length,
         is_decimal := !dotPart.isEmpty },
       intD.length + dotPart.length + fracD.length) := by
  have hint9 : ∀ c ∈ intD, dsub c ≤ 9 := fun c hc => dsub_le_nine_of_digit (hint c hc)
  have hfold1 : intD.foldl (fun t c => stepDigit t (dsub c)) (⟨0, 0, 0, false⟩ : ScanState) =
      (digitsOf intD).foldl stepDigit ⟨0, 0, 0, false⟩ := by
    rw [digitsOf, List.foldl_map]
  have hs1 := scan_int_digits intD hint (by omega)
  have hk₁a : min intD.length MAX_INT_DIGITS ≤ intD.length := Nat.min_le_left _ _
  have hiv1 : natVal ((digitsOf intD).take (min intD.length MAX_INT_DIGITS)) <
      10 ^ (min intD.length MAX_INT_DIGITS) := by
    have h := natVal_lt ((digitsOf intD).take (min intD.length MAX_INT_DIGITS))
      (fun d hd => digitsOf_le_nine intD hint d (List.mem_of_mem_take hd))
    have hlen : ((digitsOf intD).take (min intD.length MAX_INT_DIGITS)).length =
        min intD.length MAX_INT_DIGITS := by
      rw [List.length_take, length_digitsOf]
      omega
    rwa [hlen] at h
  have htake1 : (digitsOf intD).take (min intD.length MAX_INT_DIGITS) =
      (digitsOf intD).take MAX_INT_DIGITS := by
    rw [← length_digitsOf intD, take_min_length]
  rcases hdot with hdp | ⟨hdp, hfr⟩
  · -- a decimal point is present
    subst hdp
    have hdotc : dsub '.' = 254 := by decide
    have hfrac9 : ∀ c ∈ fracD, dsub c ≤ 9 := fun c hc => dsub_le_nine_of_digit (hfrac c hc)
    have hfold2 : ∀ s : ScanState, fracD.foldl (fun t c => stepDigit t (dsub c)) s =
        (digitsOf fracD).foldl stepDigit s := by
      intro s; rw [digitsOf, List.foldl_map]
    have hstep1 : scanLoop (intD ++ ['.'] ++ fracD ++ rest) ⟨0, 0, 0, false⟩ =
        ((scanLoop ('.' :: (fracD ++ rest))
            ⟨natVal ((digitsOf intD).take (min intD.length MAX_INT_DIGITS)),
             ((intD.length - min intD.length MAX_INT_DIGITS : Nat) : Int),
             intD.length, false⟩).1,
         (scanLoop ('.' :: (fracD ++ rest))
            ⟨natVal ((digitsOf intD).take (min intD.length MAX_INT_DIGITS)),
             ((intD.length - min intD.length MAX_INT_DIGITS : Nat) : Int),
             intD.length, false⟩).2 + intD.length) := by
      rw [List.append_assoc, List.append_assoc, List.singleton_append,
        scanLoop_digits intD _ _ hint9, hfold1, hs1]
    have hstep2 : scanLoop ('.' :: (fracD ++ rest))
        (⟨natVal ((digitsOf intD).take (min intD.length MAX_INT_DIGITS)),
          ((intD.length - min intD.length MAX_INT_DIGITS : Nat) : Int),
          intD.length, false⟩ : ScanState) =
        ((scanLoop (fracD ++ rest)
            ⟨natVal ((digitsOf intD).take (min intD.length MAX_INT_DIGITS)),
             ((intD.length - min intD.length MAX_INT_DIGITS : Nat) : Int),
             intD.length, true⟩).1,
         (scanLoop (fracD ++ rest)
            ⟨natVal ((digitsOf intD).take (min intD.length MAX_INT_DIGITS)),
             ((intD.length - min intD.length MAX_INT_DIGITS : Nat) : Int),
             intD.length, true⟩).2 + 1) :=
      scanLoop_dot '.' (fracD ++ rest) _ rfl hdotc
    have hs2 := scan_frac_digits fracD
      (natVal ((digitsOf intD).take (min intD.length MAX_INT_DIGITS)))
      ((intD.length - min intD.length MAX_INT_DIGITS : Nat) : Int)
      intD.length hfrac (by omega) hiv1
    have hstep3 : scanLoop (fracD ++ rest)
        (⟨natVal ((digitsOf intD).take (min intD.length MAX_INT_DIGITS)),
          ((intD.length - min intD.length MAX_INT_DIGITS : Nat) : Int),
          intD.length, true⟩ : ScanState) =
        ((scanLoop rest
            { integer_value := natVal ((digitsOf intD).take (min intD.length MAX_INT_DIGITS)) *
                10 ^ (min fracD.length (MAX_INT_DIGITS - intD.length)) +
                natVal ((digitsOf fracD).take (min fracD.length (MAX_INT_DIGITS - intD.length))),
              exponent := ((intD.length - min intD.length MAX_INT_DIGITS : Nat) : Int) -
                ((min fracD.length (MAX_INT_DIGITS - intD.length) : Nat) : Int),
              num_digits := intD.length + fracD.length,
              is_decimal := true }).1,
         (scanLoop rest
            { integer_value := natVal ((digitsOf intD).take (min intD.length MAX_INT_DIGITS)) *
                10 ^ (min fracD.length (MAX_INT_DIGITS - intD.length)) +
                natVal ((digitsOf fracD).take (min fracD.length (MAX_INT_DIGITS - intD.length))),
              exponent := ((intD.length - min intD.length MAX_INT_DIGITS : Nat) : Int) -
                ((min fracD.length (MAX_INT_DIGITS - intD.length) : Nat) : Int),
              num_digits := intD.length + fracD.length,
              is_decimal := true }).2 + fracD.length) := by
      rw [scanLoop_digits fracD rest _ hfrac9, hfold2, hs2]
    have hstop : ∀ s : ScanState, s.is_decimal = true → scanLoop rest s = (s, 0) := by
      intro s hsdec
      rcases hterm with hre | ⟨c, rest2, hre, hc9, _⟩
      · subst hre; rfl
      · subst hre
        exact scanLoop_stop c rest2 s hc9 (by rw [hsdec]; rintro ⟨_, h⟩; cases h)
    have hmap : digitsOf ((intD ++ fracD).take MAX_INT_DIGITS) =
        (digitsOf intD).take MAX_INT_DIGITS ++
          (digitsOf fracD).take (MAX_INT_DIGITS - intD.length) := by
      simp only [digitsOf, List.map_take, List.map_append, List.take_append_eq_append_take,
        List.length_map]
    have h2 : (digitsOf fracD).take (MAX_INT_DIGITS - intD.length) =
        (digitsOf fracD).take (min fracD.length (MAX_INT_DIGITS - intD.length)) := by
      rw [List.take_eq_take, length_digitsOf]
      omega
    have h3 : ((digitsOf fracD).take (min fracD.length (MAX_INT_DIGITS - intD.length))).length
        = min fracD.length (MAX_INT_DIGITS - intD.length) := by
      rw [List.length_take, length_digitsOf]
      omega
    have hiv_eq : natVal ((digitsOf intD).take (min intD.length MAX_INT_DIGITS)) *
          10 ^ (min fracD.length (MAX_INT_DIGITS - intD.length)) +
          natVal ((digitsOf fracD).take (min fracD.length (MAX_INT_DIGITS - intD.length))) =
        natOfDigits ((intD ++ fracD).take MAX_INT_DIGITS) := by
      rw [natOfDigits, hmap, h2, natVal_append, h3, htake1]
    have hexp_eq : ((intD.length - min intD.length MAX_INT_DIGITS : Nat) : Int) -
          ((min fracD.length (MAX_INT_DIGITS - intD.length) : Nat) : Int) =
        ((intD.length - MAX_INT_DIGITS : Nat) : Int) -
          ((min fracD.length (MAX_INT_DIGITS - intD.length) : Nat) : Int) := by
      omega
    rw [hstep1, hstep2, hstep3, hstop _ rfl]
    refine Prod.ext (ScanState.ext4 ?_ ?_ ?_ ?_) ?_ <;> dsimp only <;>
      first
        | rfl
        | exact hiv_eq
        | exact hexp_eq
        | (simp only [List.length_cons, List.length_nil]; omega)
  · -- no decimal point, hence no fractional digits
    subst hdp; subst hfr
    simp only [List.append_nil, List.length_nil, List.isEmpty_nil]
    have hstep1 : scanLoop (intD ++ rest) ⟨0, 0, 0, false⟩ =
        ((scanLoop rest
            ⟨natVal ((digitsOf intD).take (min intD.length MAX_INT_DIGITS)),
             ((intD.length - min intD.length MAX_INT_DIGITS : Nat) : Int),
             intD.length, false⟩).1,
         (scanLoop rest
            ⟨natVal ((digitsOf intD).take (min intD.length MAX_INT_DIGITS)),
             ((intD.length - min intD.length MAX_INT_DIGITS : Nat) : Int),
             intD.length, false⟩).2 + intD.length) := by
      rw [scanLoop_digits intD rest _ hint9, hfold1, hs1]
    have hstop : ∀ s : ScanState, scanLoop rest s = (s, 0) := by
      intro s
      rcases hterm with hre | ⟨c, rest2, hre, hc9, hnd⟩
      · subst hre; rfl
      · subst hre
        refine scanLoop_stop c rest2 s hc9 ?_
        rcases hnd with h | h
        · exact absurd h (by simp)
        · rintro ⟨h254, _⟩; exact h h254
    have hiv_eq2 : natVal ((digitsOf intD).take (min intD.length MAX_INT_DIGITS)) =
        natOfDigits (intD.take MAX_INT_DIGITS) := by
      have hmap2 : digitsOf (intD.take MAX_INT_DIGITS) =
          (digitsOf intD).take MAX_INT_DIGITS := by
        simp only [digitsOf, List.map_take]
      rw [natOfDigits, hmap2, htake1]
    rw [hstep1, hstop]
    refine Prod.ext (ScanState.ext4 ?_ ?_ ?_ ?_) ?_ <;> dsimp only <;>
      first
        | rfl
        | exact hiv_eq2
        | omega

/-! ## read_float on well-formed numerals -/

theorem signScan_nosign (body : List Char)
    (h : ∀ c, body.head? = some c → byteOf c ≠ 45 ∧ byteOf c ≠ 43) :
    signScan body = (false, 0, body) := by
  cases body with
  | nil => rfl
  | cons c cs =>
    obtain ⟨h45, h43⟩ := h c rfl
    simp [signScan, h45, h43]

theorem signScan_plus (body : List Char) : signScan ('+' :: body) = (false, 1, body) := by
  have h45 : ¬ byteOf '+' = 45 := by decide
  have h43 : byteOf '+' = 43 := by decide
  simp [signScan, h45, h43]

theorem signScan_minus (body : List Char) : signScan ('-' :: body) = (true, 1, body) := by
  have h45 : byteOf '-' = 45 := by decide
  simp [signScan, h45]

theorem read_float_of_signScan (line : List Char) (cursor : Nat) (neg : Bool) (slen : Nat)
    (intD dotPart fracD rest : List Char)
    (hsign : signScan (line.drop cursor) = (neg, slen, intD ++ dotPart ++ fracD ++ rest))
    (hint : ∀ c ∈ intD, isDigitCh c)
    (hfrac : ∀ c ∈ fracD, isDigitCh c)
    (hdot : dotPart = ['.'] ∨ (dotPart = [] ∧ fracD = []))
    (hpos : 0 < intD.length + fracD.length)
    (hbound : intD.length + fracD.length ≤ 255)
    (hterm : rest = [] ∨ ∃ c rest2, rest = c :: rest2 ∧ ¬ dsub c ≤ 9 ∧
              (dotPart = ['.'] ∨ dsub c ≠ 254)) :
    read_float line cursor =
      some (cursor + slen + (intD.length + dotPart.length + fracD.length),
        (if neg then (-1 : ℚ) else 1) *
          ((natOfDigits ((intD ++ fracD).take MAX_INT_DIGITS) : ℚ) *
            (10 : ℚ) ^ (((intD.length - MAX_INT_DIGITS : Nat) : Int) -
              ((min fracD.length (MAX_INT_DIGITS - intD.length) : Nat) : Int)))) := by
  have hscan := scanLoop_numeral intD dotPart fracD rest hint hfrac hdot hbound hterm
  simp only [read_float, hsign, hscan]
  rw [if_neg (show ¬ (intD.length + fracD.length = 0) by omega)]
  rw [applyExponent_eq]
  cases neg <;> simp

/-- Main characterisation of `read_float` on a maximal numeral: given a
cursor pointing at `sgn ++ intD ++ dotPart ++ fracD` followed by a
terminating character, the decode succeeds, consumes exactly the numeral,
and returns the value of the first `MAX_INT_DIGITS` digits scaled by the
recorded exponent. -/
theorem read_float_grammar (line : List Char) (cursor : Nat)
    (sgn intD dotPart fracD rest : List Char)
    (hsplit : line.drop cursor = sgn ++ intD ++ dotPart ++ fracD ++ rest)
    (hsgn : sgn = [] ∨ sgn = ['+'] ∨ sgn = ['-'])
    (hint : ∀ c ∈ intD, isDigitCh c)
    (hfrac : ∀ c ∈ fracD, isDigitCh c)
    (hdot : dotPart = ['.'] ∨ (dotPart = [] ∧ fracD = []))
    (hpos : 0 < intD.length + fracD.length)
    (hbound : intD.length + fracD.length ≤ 255)
    (hterm : rest = [] ∨ ∃ c rest2, rest = c :: rest2 ∧ ¬ dsub c ≤ 9 ∧
              (dotPart = ['.'] ∨ dsub c ≠ 254)) :
    read_float line cursor =
      some (cursor + sgn.length + (intD.length + dotPart.length + fracD.length),
        (if sgn = ['-'] then (-1 : ℚ) else 1) *
          ((natOfDigits ((intD ++ fracD).take MAX_INT_DIGITS) : ℚ) *
            (10 : ℚ) ^ (((intD.length - MAX_INT_DIGITS : Nat) : Int) -
              ((min fracD.length (MAX_INT_DIGITS - intD.length) : Nat) : Int)))) := by
  rcases hsgn with h | h | h <;> subst h
  · -- no sign character
    have hhead : ∀ c, (intD ++ dotPart ++ fracD ++ rest).head? = some c →
        byteOf c ≠ 45 ∧ byteOf c ≠ 43 := by
      cases intD with
      | cons d intD' =>
        intro c hc
        simp only [List.cons_append, List.head?_cons, Option.some.injEq] at hc
        have hd := hint d (by simp)
        unfold isDigitCh at hd
        subst hc
        omega
      | nil =>
        rcases hdot with hdp | ⟨hdp, hfr⟩
        · subst hdp
          intro c hc
          simp only [List.nil_append, List.cons_append, List.head?_cons,
            Option.some.injEq] at hc
          subst hc
          exact ⟨by decide, by decide⟩
        · subst hdp; subst hfr
          simp at hpos
    have hsig : signScan (line.drop cursor) =
        (false, 0, intD ++ dotPart ++ fracD ++ rest) := by
      rw [show line.drop cursor = intD ++ dotPart ++ fracD ++ rest by simpa using hsplit]
      exact signScan_nosign _ hhead
    rw [read_float_of_signScan line cursor false 0 intD dotPart fracD rest hsig hint hfrac
      hdot hpos hbound hterm]
    rw [if_neg (by decide : ¬ ([] : List Char) = ['-'])]
    norm_num
  · -- leading plus
    have hsig : signScan (line.drop cursor) =
        (false, 1, intD ++ dotPart ++ fracD ++ rest) := by
      rw [show line.drop cursor = '+' :: (intD ++ dotPart ++ fracD ++ rest) by
        simpa using hsplit]
      exact signScan_plus _
    rw [read_float_of_signScan line cursor false 1 intD dotPart fracD rest hsig hint hfrac
      hdot hpos hbound hterm]
    rw [if_neg (by decide : ¬ (['+'] : List Char) = ['-'])]
    norm_num
  · -- leading minus
    have hsig : signScan (line.drop cursor) =
        (true, 1, intD ++ dotPart ++ fracD ++ rest) := by
      rw [show line.drop cursor = '-' :: (intD ++ dotPart ++ fracD ++ rest) by
        simpa using hsplit]
      exact signScan_minus _
    rw [read_float_of_signScan line cursor true 1 intD dotPart fracD rest hsig hint hfrac
      hdot hpos hbound hterm]
    rw [if_pos (rfl : (['-'] : List Char) = ['-'])]
    norm_num

theorem natOfDigits_append (xs ys : List Char) :
    natOfDigits (xs ++ ys) = natOfDigits xs * 10 ^ ys.length + natOfDigits ys := by
  rw [natOfDigits, digitsOf, List.map_append, natVal_append]
  simp [natOfDigits, digitsOf]

theorem drop_of_split (line p rest : List Char) (cursor : Nat)
    (h : line.drop cursor = p ++ rest) :
    line.drop (cursor + p.length) = rest := by
  have h2 : line.drop (cursor + p.length) = (line.drop cursor).drop p.length := by
    rw [List.drop_drop, Nat.add_comm]
  rw [h2, h, List.drop_left]

/-- C2.  For a numeral matching the grammar (optional sign, at least one
integer digit, optional fraction) with at most `MAX_INT_DIGITS` digits in
total, `read_float` succeeds, the decoded value is exactly the
mathematical value of the numeral (the rational model makes the
floating-point tolerance exact), and the returned cursor is the index of
the first unconsumed character: the text from the returned cursor onwards
is exactly `rest`, whose head is the terminating character. -/
theorem claim_C2_read_float_exact (line : List Char) (cursor : Nat)
    (sgn intD dotPart fracD rest : List Char)
    (hsplit : line.drop cursor = sgn ++ intD ++ dotPart ++ fracD ++ rest)
    (hsgn : sgn = [] ∨ sgn = ['+'] ∨ sgn = ['-'])
    (hint : ∀ c ∈ intD, isDigitCh c)
    (hfrac : ∀ c ∈ fracD, isDigitCh c)
    (hdot : dotPart = ['.'] ∨ (dotPart = [] ∧ fracD = []))
    (hne : intD ≠ [])
    (hdigits : intD.length + fracD.length ≤ MAX_INT_DIGITS)
    (hterm : rest = [] ∨ ∃ c rest2, rest = c :: rest2 ∧ ¬ dsub c ≤ 9 ∧
              (dotPart = ['.'] ∨ dsub c ≠ 254)) :
    read_float line cursor =
      some (cursor + sgn.length + (intD.length + dotPart.length + fracD.length),
        (if sgn = ['-'] then (-1 : ℚ) else 1) * numeralValue intD fracD) ∧
    line.drop (cursor + sgn.length + (intD.length + dotPart.length + fracD.length)) =
      rest := by
  have hpos : 0 < intD.length + fracD.length := by
    have := List.length_pos.mpr hne
    omega
  have hbound : intD.length + fracD.length ≤ 255 := by
    unfold MAX_INT_DIGITS at hdigits
    omega
  constructor
  · rw [read_float_grammar line cursor sgn intD dotPart fracD rest hsplit hsgn hint hfrac
      hdot hpos hbound hterm]
    have htake : (intD ++ fracD).take MAX_INT_DIGITS = intD ++ fracD :=
      List.take_of_length_le (by rw [List.length_append]; omega)
    have hexp : (((intD.length - MAX_INT_DIGITS : Nat) : Int) -
        ((min fracD.length (MAX_INT_DIGITS - intD.length) : Nat) : Int)) =
        -(fracD.length : Int) := by
      omega
    have hval : ((natOfDigits ((intD ++ fracD).take MAX_INT_DIGITS) : ℚ) *
        (10 : ℚ) ^ (((intD.length - MAX_INT_DIGITS : Nat) : Int) -
          ((min fracD.length (MAX_INT_DIGITS - intD.length) : Nat) : Int))) =
        numeralValue intD fracD := by
      have h10 : ((10 : ℚ) ^ fracD.length) ≠ 0 := by positivity
      rw [htake, hexp, natOfDigits_append, numeralValue, zpow_neg, zpow_natCast]
      push_cast
      field_simp
    rw [hval]
  · have hdrop := drop_of_split line (sgn ++ intD ++ dotPart ++ fracD) rest cursor hsplit
    have hlen : cursor + (sgn ++ intD ++ dotPart ++ fracD).length =
        cursor + sgn.length + (intD.length + dotPart.length + fracD.length) := by
      simp only [List.length_append]
      omega
    rwa [hlen] at hdrop

/-- C7 (amended).  For any maximal numeral with fewer than 256 digits in
total, `read_float` succeeds (the digit cap causes no failure); the
accumulator retains exactly the first `MAX_INT_DIGITS` digits; every
excess digit before the decimal point contributes `+1` to the exponent
(acting as a trailing zero), while excess digits after the decimal point
change neither accumulator nor exponent (only the accepted fractional
digits, `min fracD.length (MAX_INT_DIGITS - intD.length)` of them, count
`-1` each). -/
theorem claim_C7_digit_cap (line : List Char) (cursor : Nat)
    (sgn intD dotPart fracD rest : List Char)
    (hsplit : line.drop cursor = sgn ++ intD ++ dotPart ++ fracD ++ rest)
    (hsgn : sgn = [] ∨ sgn = ['+'] ∨ sgn = ['-'])
    (hint : ∀ c ∈ intD, isDigitCh c)
    (hfrac : ∀ c ∈ fracD, isDigitCh c)
    (hdot : dotPart = ['.'] ∨ (dotPart = [] ∧ fracD = []))
    (hpos : 0 < intD.length + fracD.length)
    (hbound : intD.length + fracD.length ≤ 255)
    (hterm : rest = [] ∨ ∃ c rest2, rest = c :: rest2 ∧ ¬ dsub c ≤ 9 ∧
              (dotPart = ['.'] ∨ dsub c ≠ 254)) :
    (scanLoop (intD ++ dotPart ++ fracD ++ rest) ⟨0, 0, 0, false⟩).1.integer_value =
        natOfDigits ((intD ++ fracD).take MAX_INT_DIGITS) ∧
    (scanLoop (intD ++ dotPart ++ fracD ++ rest) ⟨0, 0, 0, false⟩).1.exponent =
        ((intD.length - MAX_INT_DIGITS : Nat) : Int) -
          ((min fracD.length (MAX_INT_DIGITS - intD.length) : Nat) : Int) ∧
    read_float line cursor =
      some (cursor + sgn.length + (intD.length + dotPart.length + fracD.length),
        (if sgn = ['-'] then (-1 : ℚ) else 1) *
          ((natOfDigits ((intD ++ fracD).take MAX_INT_DIGITS) : ℚ) *
            (10 : ℚ) ^ (((intD.length - MAX_INT_DIGITS : Nat) : Int) -
              ((min fracD.length (MAX_INT_DIGITS - intD.length) : Nat) : Int)))) := by
  refine ⟨?_, ?_, read_float_grammar line cursor sgn intD dotPart fracD rest hsplit hsgn
    hint hfrac hdot hpos hbound hterm⟩ <;>
    rw [scanLoop_numeral intD dotPart fracD rest hint hfrac hdot hbound hterm]

set_option maxRecDepth 100000 in
/-- C7 counterexample to the unrestricted claim: a run of 256 digits makes
the 8-bit digit counter `num_digits` wrap to zero, so `read_float` reports
failure even though digits were read — digits beyond the cap CAN cause a
decode failure. -/
theorem claim_C7_counterexample :
    read_float (List.replicate 256 '1') 0 = none := by decide

theorem scanLoop_no_digits (t : List Char) (h : noDigitsAhead t) :
    (scanLoop t ⟨0, 0, 0, false⟩).1.num_digits = 0 := by
  rcases h with rfl | ⟨c, t2, rfl, h9, h254⟩ | ⟨c, t2, rfl, h254, h2⟩
  · rfl
  · rw [scanLoop_stop c t2 _ h9 (by rintro ⟨hh, _⟩; exact h254 hh)]
  · rw [scanLoop_dot c t2 _ rfl h254]
    rcases h2 with rfl | ⟨c2, t3, rfl, h9'⟩
    · rfl
    · rw [scanLoop_stop c2 t3 _ h9' (by rintro ⟨_, hh⟩; cases hh)]

/-- C8.  When zero digits are readable at the cursor (after an optional
sign the text ends, starts with a terminating character, or has only a
decimal point before a terminator), `read_float` returns failure; in the C
code this return path writes neither `*char_counter` nor `*float_ptr`,
which the model renders as `none`. -/
theorem claim_C8_no_digits_fails (line : List Char) (cursor : Nat)
    (sgn t : List Char)
    (hsplit : line.drop cursor = sgn ++ t)
    (hsgn : sgn = [] ∨ sgn = ['+'] ∨ sgn = ['-'])
    (hnosign : sgn = [] → ∀ c, t.head? = some c → byteOf c ≠ 45 ∧ byteOf c ≠ 43)
    (hnodig : noDigitsAhead t) :
    read_float line cursor = none := by
  have hnum := scanLoop_no_digits t hnodig
  rcases hsgn with h | h | h <;> subst h
  · have hsig : signScan (line.drop cursor) = (false, 0, t) := by
      rw [show line.drop cursor = t by simpa using hsplit]
      exact signScan_nosign t (hnosign rfl)
    simp [read_float, hsig, hnum]
  · have hsig : signScan (line.drop cursor) = (false, 1, t) := by
      rw [show line.drop cursor = '+' :: t by simpa using hsplit]
      exact signScan_plus t
    simp [read_float, hsig, hnum]
  · have hsig : signScan (line.drop cursor) = (true, 1, t) := by
      rw [show line.drop cursor = '-' :: t by simpa using hsplit]
      exact signScan_minus t
    simp [read_float, hsig, hnum]

/-- C10.  `read_float` accepts numerals outside the spec grammar
`[+-]?digits[.digits]?`: `".5"` (no digit before the point) decodes to
`1/2` with both characters consumed, and `"5."` (trailing point, no
following digit) decodes to `5` with the point consumed, the cursor
ending past the dot in both cases. -/
theorem claim_C10_grammar_extras :
    read_float ['.', '5'] 0 = some (2, 1 / 2) ∧
    read_float ['5', '.'] 0 = some (2, 5) := by
  constructor
  · have hsig : signScan (List.drop 0 ['.', '5']) = (false, 0, ['.', '5']) := by decide
    have hscan : scanLoop ['.', '5'] ⟨0, 0, 0, false⟩ = (⟨5, -1, 1, true⟩, 2) := by decide
    simp only [read_float, hsig, hscan]
    norm_num [applyExponent_eq]
  · have hsig : signScan (List.drop 0 ['5', '.']) = (false, 0, ['5', '.']) := by decide
    have hscan : scanLoop ['5', '.'] ⟨0, 0, 0, false⟩ = (⟨5, 0, 1, true⟩, 2) := by decide
    simp only [read_float, hsig, hscan]
    norm_num [applyExponent_eq]

/-- Witness for C2: decoding `"X12.345 "` starting after the `X` yields
`12.345` (`2469/200`) with the cursor at the space, and `"+5"` decodes to
the same value as `"5"`. -/
theorem claim_C2_witness :
    read_float ['X', '1', '2', '.', '3', '4', '5', ' '] 1 = some (7, 2469 / 200) ∧
    List.drop 7 ['X', '1', '2', '.', '3', '4', '5', ' '] = [' '] ∧
    read_float ['+', '5'] 0 = some (2, 5) ∧
    read_float ['5'] 0 = some (1, 5) := by
  obtain ⟨h1, h2⟩ := claim_C2_read_float_exact ['X', '1', '2', '.', '3', '4', '5', ' '] 1
    [] ['1', '2'] ['.'] ['3', '4', '5'] [' ']
    (by decide) (Or.inl rfl) (by decide) (by decide) (Or.inl rfl) (by decide) (by decide)
    (Or.inr ⟨' ', [], rfl, by decide, Or.inl rfl⟩)
  obtain ⟨h3, _⟩ := claim_C2_read_float_exact ['+', '5'] 0
    ['+'] ['5'] [] [] []
    (by decide) (Or.inr (Or.inl rfl)) (by decide) (by decide) (Or.inr ⟨rfl, rfl⟩)
    (by decide) (by decide) (Or.inl rfl)
  obtain ⟨h4, _⟩ := claim_C2_read_float_exact ['5'] 0
    [] ['5'] [] [] []
    (by decide) (Or.inl rfl) (by decide) (by decide) (Or.inr ⟨rfl, rfl⟩)
    (by decide) (by decide) (Or.inl rfl)
  have hn1 : natOfDigits ['1', '2'] = 12 := by decide
  have hn2 : natOfDigits ['3', '4', '5'] = 345 := by decide
  have hn3 : natOfDigits ['5'] = 5 := by decide
  have hn0 : natOfDigits [] = 0 := by decide
  refine ⟨?_, h2, ?_, ?_⟩
  · rw [h1, if_neg (by decide : ¬ ([] : List Char) = ['-'])]
    norm_num [numeralValue, hn1, hn2]
  · rw [h3, if_neg (by decide : ¬ (['+'] : List Char) = ['-'])]
    norm_num [numeralValue, hn3, hn0]
  · rw [h4, if_neg (by decide : ¬ ([] : List Char) = ['-'])]
    norm_num [numeralValue, hn3, hn0]

/-- Witness for C7 (amended): on `"1234567890.5x"` the accumulator keeps
only the first eight digits `12345678`, the two excess integer digits
shift the exponent to `+2`, the fractional digit beyond the cap changes
nothing, and the decode succeeds with value `1234567800`. -/
theorem claim_C7_witness :
    (scanLoop (['1', '2', '3', '4', '5', '6', '7', '8', '9', '0'] ++ ['.'] ++ ['5'] ++ ['x'])
        ⟨0, 0, 0, false⟩).1.integer_value = 12345678 ∧
    (scanLoop (['1', '2', '3', '4', '5', '6', '7', '8', '9', '0'] ++ ['.'] ++ ['5'] ++ ['x'])
        ⟨0, 0, 0, false⟩).1.exponent = 2 ∧
    read_float ['1', '2', '3', '4', '5', '6', '7', '8', '9', '0', '.', '5', 'x'] 0 =
      some (12, 1234567800) := by
  obtain ⟨h1, h2, h3⟩ := claim_C7_digit_cap
    ['1', '2', '3', '4', '5', '6', '7', '8', '9', '0', '.', '5', 'x'] 0
    [] ['1', '2', '3', '4', '5', '6', '7', '8', '9', '0'] ['.'] ['5'] ['x']
    (by decide) (Or.inl rfl) (by decide) (by decide) (Or.inl rfl) (by decide) (by decide)
    (Or.inr ⟨'x', [], rfl, by decide, Or.inl rfl⟩)
  have hn : natOfDigits ((['1', '2', '3', '4', '5', '6', '7', '8', '9', '0'] ++
      ['5']).take MAX_INT_DIGITS) = 12345678 := by decide
  refine ⟨?_, ?_, ?_⟩
  · rw [h1, hn]
  · rw [h2]; decide
  · rw [h3, if_neg (by decide : ¬ ([] : List Char) = ['-']), hn]
    norm_num [MAX_INT_DIGITS]

/-- Witness for C8: decoding `"abc"` fails with nothing consumed. -/
theorem claim_C8_witness : read_float ['a', 'b', 'c'] 0 = none :=
  claim_C8_no_digits_fails ['a', 'b', 'c'] 0 [] ['a', 'b', 'c'] (by decide) (Or.inl rfl)
    (fun _ c hc => by
      simp only [List.head?_cons, Option.some.injEq] at hc
      subst hc
      exact ⟨by decide, by decide⟩)
    (Or.inr (Or.inl ⟨'a', ['b', 'c'], rfl, by decide, by decide⟩))

/-! ## Properties of the axis-value formatter -/

theorem digitChar_ne_comma_dot : ∀ d < 10,
    Nat.digitChar d ≠ ',' ∧ Nat.digitChar d ≠ '.' := by decide

theorem natDigitsRev_mem (fuel : Nat) : ∀ (n : Nat), ∀ c ∈ natDigitsRev fuel n,
    ∃ d, d < 10 ∧ c = Nat.digitChar d := by
  induction fuel with
  | zero => intro n c hc; simp [natDigitsRev] at hc
  | succ fuel ih =>
    intro n c hc
    by_cases hn : n = 0
    · simp [natDigitsRev, hn] at hc
    · simp only [natDigitsRev, if_neg hn, List.mem_cons] at hc
      rcases hc with rfl | hc
      · exact ⟨n % 10, Nat.mod_lt _ (by omega), rfl⟩
      · exact ih _ c hc

theorem natRepr_mem (n : Nat) : ∀ c ∈ natRepr n, ∃ d, d < 10 ∧ c = Nat.digitChar d := by
  intro c hc
  unfold natRepr at hc
  by_cases hn : n = 0
  · subst hn
    simp at hc
    exact ⟨0, by omega, by rw [hc]; rfl⟩
  · rw [if_neg hn, List.mem_reverse] at hc
    exact natDigitsRev_mem n n c hc

theorem fracDigits_length (m prec : Nat) : (fracDigits m prec).length = prec := by
  simp [fracDigits]

theorem fracDigits_mem (m prec : Nat) : ∀ c ∈ fracDigits m prec,
    ∃ d, d < 10 ∧ c = Nat.digitChar d := by
  intro c hc
  unfold fracDigits at hc
  obtain ⟨i, _, rfl⟩ := List.mem_map.mp hc
  exact ⟨_, Nat.mod_lt _ (by omega), rfl⟩

theorem formatFixed_mem (q : ℚ) (prec : Nat) : ∀ c ∈ formatFixed q prec,
    c = '-' ∨ c = '.' ∨ ∃ d, d < 10 ∧ c = Nat.digitChar d := by
  intro c hc
  unfold formatFixed at hc
  simp only [List.mem_append, List.mem_cons] at hc
  rcases hc with (hc | hc) | hc | hc
  · left
    rcases Int.lt_or_le (round (q * 10 ^ prec)) 0 with hlt | hge
    · simpa [hlt] using hc
    · simp [Int.not_lt.mpr hge] at hc
  · exact Or.inr (Or.inr (natRepr_mem _ c hc))
  · exact Or.inr (Or.inl hc)
  · exact Or.inr (Or.inr (fracDigits_mem _ _ c hc))

theorem formatFixed_no_comma (q : ℚ) (prec : Nat) : ',' ∉ formatFixed q prec := by
  intro hc
  rcases formatFixed_mem q prec ',' hc with h | h | ⟨d, hd, h⟩
  · cases h
  · cases h
  · exact (digitChar_ne_comma_dot d hd).1 h.symm

theorem formatFixed_ne_nil (q : ℚ) (prec : Nat) : formatFixed q prec ≠ [] := by
  unfold formatFixed
  intro h
  rcases List.append_eq_nil.mp h with ⟨_, h2⟩
  cases h2

theorem takeWhile_all_append (p : Char → Bool) (l1 : List Char) (c : Char)
    (l2 : List Char) (h1 : ∀ x ∈ l1, p x = true) (hc : p c = false) :
    (l1 ++ c :: l2).takeWhile p = l1 := by
  induction l1 with
  | nil => simp [List.takeWhile_cons, hc]
  | cons a l ih =>
    simp only [List.cons_append, List.takeWhile_cons, h1 a (by simp), if_true,
      ih fun x hx => h1 x (by simp [hx])]

theorem formatFixed_decimals (q : ℚ) (prec : Nat) :
    decimalsAfterDot (formatFixed q prec) = prec := by
  unfold decimalsAfterDot formatFixed
  rw [List.reverse_append, List.reverse_cons]
  have hdig : ∀ x ∈ (fracDigits ((round (q * 10 ^ prec)).natAbs % 10 ^ prec) prec).reverse,
      (x != '.') = true := by
    intro x hx
    rw [List.mem_reverse] at hx
    obtain ⟨d, hd, rfl⟩ := fracDigits_mem _ _ x hx
    simpa using (digitChar_ne_comma_dot d hd).2
  rw [List.append_assoc, List.singleton_append,
    takeWhile_all_append _ _ '.' _ hdig (by simp), List.length_reverse, fracDigits_length]

theorem axisValueString_no_comma (v : ℚ) (inches : Bool) :
    ',' ∉ axisValueString v inches :=
  formatFixed_no_comma _ _

theorem report_axis_count_comma (vals : List ℚ) (inches : Bool) :
    (report_util_axis_values vals inches).count ',' = vals.length - 1 := by
  induction vals with
  | nil => simp [report_util_axis_values]
  | cons v rest ih =>
    cases rest with
    | nil =>
      simpa using List.count_eq_zero.mpr (axisValueString_no_comma v inches)
    | cons w rest' =>
      simp only [report_util_axis_values] at ih ⊢
      rw [List.count_append, List.count_cons_self,
        List.count_eq_zero.mpr (axisValueString_no_comma v inches), ih]
      simp only [List.length_cons]
      omega

theorem report_axis_ne_nil (v : ℚ) (vals : List ℚ) (inches : Bool) :
    report_util_axis_values (v :: vals) inches ≠ [] := by
  cases vals with
  | nil => exact formatFixed_ne_nil _ _
  | cons w rest =>
    simp only [report_util_axis_values]
    intro h
    rcases List.append_eq_nil.mp h with ⟨_, h2⟩
    cases h2

theorem report_axis_getLast (vals : List ℚ) (inches : Bool) :
    ∀ c, (report_util_axis_values vals inches).getLast? = some c → c ≠ ',' := by
  induction vals with
  | nil => intro c hc; cases hc
  | cons v rest ih =>
    cases rest with
    | nil =>
      intro c hc
      have hmem : c ∈ report_util_axis_values [v] inches :=
        List.mem_of_mem_getLast? (Option.mem_def.mpr hc)
      exact fun h => axisValueString_no_comma v inches (h ▸ hmem)
    | cons w rest' =>
      intro c hc
      have hne := report_axis_ne_nil w rest' inches
      obtain ⟨r, rs, hrec⟩ := List.exists_cons_of_ne_nil hne
      rw [show report_util_axis_values (v :: w :: rest') inches =
            axisValueString v inches ++ ',' :: report_util_axis_values (w :: rest') inches
          from rfl,
        List.getLast?_append_cons, hrec, List.getLast?_cons_cons] at hc
      exact ih c (by rw [hrec]; exact hc)

/-- C9.  For every vector of `N_AXIS` values and either unit mode, the
rendered axis string has exactly `N_AXIS - 1` comma separators, its last
character is never a comma, every rendered component has exactly 3
decimal digits in metric mode and exactly 4 in imperial mode, and each
component is the fixed-point rendering of the value scaled by 1/25.4 in
imperial mode (by 1 in metric mode). -/
theorem claim_C9_axis_format (vals : List ℚ) (inches : Bool)
    (hlen : vals.length = N_AXIS) :
    (report_util_axis_values vals inches).count ',' = N_AXIS - 1 ∧
    (∀ c, (report_util_axis_values vals inches).getLast? = some c → c ≠ ',') ∧
    (∀ v ∈ vals, decimalsAfterDot (axisValueString v inches) =
      if inches then 4 else 3) ∧
    (∀ v : ℚ, axisValueString v inches =
      formatFixed (v * (if inches then 1 / MM_PER_INCH else 1))
        (if inches then 4 else 3)) := by
  refine ⟨hlen ▸ report_axis_count_comma vals inches,
    report_axis_getLast vals inches, fun v _ => ?_, fun v => rfl⟩
  unfold axisValueString
  cases inches <;> simp [formatFixed_decimals]

/-- Witness for C9: a concrete three-axis vector in imperial mode. -/
theorem claim_C9_witness :
    (([0, 1, -(5 : ℚ) / 2] : List ℚ).length = N_AXIS) ∧
    ((report_util_axis_values [0, 1, -(5 : ℚ) / 2] true).count ',' = N_AXIS - 1 ∧
     (∀ c, (report_util_axis_values [0, 1, -(5 : ℚ) / 2] true).getLast? = some c →
        c ≠ ',') ∧
     (∀ v ∈ ([0, 1, -(5 : ℚ) / 2] : List ℚ),
        decimalsAfterDot (axisValueString v true) = if true then 4 else 3) ∧
     (∀ v : ℚ, axisValueString v true =
        formatFixed (v * (if true then 1 / MM_PER_INCH else 1))
          (if true then 4 else 3))) :=
  ⟨rfl, claim_C9_axis_format [0, 1, -(5 : ℚ) / 2] true rfl⟩

/-! ## The NGC parameter report on a read failure -/

theorem ngcLoop_none (readCoord : Nat → Option (List ℚ)) (inches : Bool) (j : Nat)
    (hj : readCoord j = none) :
    ∀ (l : List Nat) (acc : List Char), j ∈ l →
      ngcLoop readCoord inches l acc = none := by
  intro l
  induction l with
  | nil => intro acc h; cases h
  | cons k ks ih =>
    intro acc hmem
    rcases List.mem_cons.mp hmem with rfl | hmem'
    · simp [ngcLoop, hj]
    · cases hck : readCoord k with
      | none => simp [ngcLoop, hck]
      | some cd =>
        simp only [ngcLoop, hck]
        exact ih _ hmem'

/-- C3.  If the stored-coordinate read fails on any record `k` of the
G54..G59/G28/G30 sequence, `report_ngc_parameters` sends exactly one
frame, the error acknowledgement `error:<STATUS_SETTING_READ_FAIL>`; the
partially built parameter report is discarded, so no coordinate-frame
record (at, before, or beyond `k`), no `G92`, no `TLO` and no probe
record is emitted — no emitted frame even contains the `[` that opens
every such record. -/
theorem claim_C3_ngc_abort (readCoord : Nat → Option (List ℚ))
    (coord_offset : List ℚ) (tool_length_offset : ℚ) (inches : Bool)
    (probe_position : List ℚ) (probe_succeeded : Nat) (k : Nat)
    (hk : k ≤ SETTING_INDEX_NCOORD) (hfail : readCoord k = none) :
    report_ngc_parameters readCoord coord_offset tool_length_offset inches
        probe_position probe_succeeded =
      [report_status_message STATUS_SETTING_READ_FAIL] ∧
    (report_status_message STATUS_SETTING_READ_FAIL).take 6 =
      ['e', 'r', 'r', 'o', 'r', ':'] ∧
    ∀ f ∈ report_ngc_parameters readCoord coord_offset tool_length_offset inches
        probe_position probe_succeeded, '[' ∉ f := by
  have hnone : ngcLoop readCoord inches (List.range (SETTING_INDEX_NCOORD + 1)) [] =
      none :=
    ngcLoop_none readCoord inches k hfail _ [] (List.mem_range.mpr (by omega))
  have hmain : report_ngc_parameters readCoord coord_offset tool_length_offset inches
      probe_position probe_succeeded =
      [report_status_message STATUS_SETTING_READ_FAIL] := by
    unfold report_ngc_parameters
    rw [hnone]
  refine ⟨hmain, by decide, ?_⟩
  rw [hmain]
  intro f hf
  rw [List.mem_singleton] at hf
  subst hf
  decide

/-- Witness for C3, matching the spec scenario: the read fails on the
third record (index 2), and the encoder sends exactly one error
acknowledgement with no bracketed output at all. -/
theorem claim_C3_witness :
    report_ngc_parameters (fun j => if j < 2 then some [0, 0, 0] else none)
        [] 0 false [] 0 =
      [report_status_message STATUS_SETTING_READ_FAIL] ∧
    (report_status_message STATUS_SETTING_READ_FAIL).take 6 =
      ['e', 'r', 'r', 'o', 'r', ':'] ∧
    ∀ f ∈ report_ngc_parameters (fun j => if j < 2 then some [0, 0, 0] else none)
        [] 0 false [] 0, '[' ∉ f :=
  claim_C3_ngc_abort (fun j => if j < 2 then some [0, 0, 0] else none)
    [] 0 false [] 0 2 (by decide) rfl

/-! ## The realtime-status throttle counters -/

theorem step_skip_skip (state : Nat) (s : ThrottleState)
    (h1 : s.report_wco_counter > 0) (h2 : s.report_ovr_counter > 0) :
    realtimeThrottleStep state s =
      ⟨false, false, ⟨s.report_wco_counter - 1, s.report_ovr_counter - 1⟩⟩ := by
  simp only [realtimeThrottleStep, if_pos h1, if_pos h2]

theorem step_skip_emit (state : Nat) (s : ThrottleState)
    (h1 : s.report_wco_counter > 0) (h2 : ¬ s.report_ovr_counter > 0) :
    realtimeThrottleStep state s =
      ⟨false, true, ⟨s.report_wco_counter - 1,
        if isBusyState state then (REPORT_OVR_REFRESH_BUSY_COUNT : Int) - 1
        else (REPORT_OVR_REFRESH_IDLE_COUNT : Int) - 1⟩⟩ := by
  simp only [realtimeThrottleStep, if_pos h1, if_neg h2]

theorem step_emit_armed (state : Nat) (s : ThrottleState)
    (h1 : ¬ s.report_wco_counter > 0) (h2 : s.report_ovr_counter = 0) :
    realtimeThrottleStep state s =
      ⟨true, false,
       ⟨(if isBusyState state then (REPORT_WCO_REFRESH_BUSY_COUNT : Int) - 1
         else (REPORT_WCO_REFRESH_IDLE_COUNT : Int) - 1), 0⟩⟩ := by
  simp only [realtimeThrottleStep, if_neg h1, if_pos h2]
  norm_num

theorem step_emit_skip (state : Nat) (s : ThrottleState)
    (h1 : ¬ s.report_wco_counter > 0) (h2 : s.report_ovr_counter > 0) :
    realtimeThrottleStep state s =
      ⟨true, false,
       ⟨(if isBusyState state then (REPORT_WCO_REFRESH_BUSY_COUNT : Int) - 1
         else (REPORT_WCO_REFRESH_IDLE_COUNT : Int) - 1),
        s.report_ovr_counter - 1⟩⟩ := by
  have h2' : s.report_ovr_counter ≠ 0 := by omega
  simp only [realtimeThrottleStep, if_neg h1, if_neg h2', if_pos h2]

theorem wcoReset_pos (state : Nat) :
    (0 : Int) < (if isBusyState state then (REPORT_WCO_REFRESH_BUSY_COUNT : Int) - 1
      else (REPORT_WCO_REFRESH_IDLE_COUNT : Int) - 1) := by
  split <;> decide

/-- C1 counterexample: in a frame in which the override field IS emitted
(override counter zero, work-offset counter 5, idle state), the
work-offset counter is merely decremented to 4, and the work-offset field
is NOT emitted on the next invocation: emitting the override field does
not arm the work-offset counter. -/
theorem claim_C1_counterexample :
    (realtimeThrottleStep STATE_IDLE ⟨5, 0⟩).ovrEmitted = true ∧
    (realtimeThrottleStep STATE_IDLE ⟨5, 0⟩).wcoEmitted = false ∧
    (realtimeThrottleStep STATE_IDLE ⟨5, 0⟩).sys.report_wco_counter = 4 ∧
    (realtimeThrottleStep STATE_IDLE
      (realtimeThrottleStep STATE_IDLE ⟨5, 0⟩).sys).wcoEmitted = false := by
  decide

/-- C1 (amended).  The cross-field arming of report.cpp line 653 runs in
the opposite direction from the claim: whenever the work-offset field is
emitted in a frame while the override counter is zero (an override
emission being due in the same frame), the override counter is set to 1,
so the override field is suppressed in that frame and emitted on the very
next invocation instead; as a consequence the two expensive fields are
never emitted in the same frame. -/
theorem claim_C1_wco_arms_ovr (state state2 : Nat) (s : ThrottleState)
    (hnn : 0 ≤ s.report_ovr_counter) :
    (¬ ((realtimeThrottleStep state s).wcoEmitted = true ∧
        (realtimeThrottleStep state s).ovrEmitted = true)) ∧
    (s.report_wco_counter = 0 → s.report_ovr_counter = 0 →
      (realtimeThrottleStep state s).wcoEmitted = true ∧
      (realtimeThrottleStep state s).ovrEmitted = false ∧
      (realtimeThrottleStep state2
        (realtimeThrottleStep state s).sys).ovrEmitted = true) := by
  constructor
  · rcases lt_or_le 0 s.report_wco_counter with h1 | h1
    · rcases lt_or_le 0 s.report_ovr_counter with h2 | h2
      · rw [step_skip_skip state s h1 h2]
        simp
      · rw [step_skip_emit state s h1 (by omega)]
        simp
    · have h1' : ¬ s.report_wco_counter > 0 := by omega
      rcases eq_or_lt_of_le hnn with h2 | h2
      · rw [step_emit_armed state s h1' h2.symm]
        simp
      · rw [step_emit_skip state s h1' h2]
        simp
  · intro hw ho
    have h1' : ¬ s.report_wco_counter > 0 := by omega
    rw [step_emit_armed state s h1' ho]
    refine ⟨rfl, rfl, ?_⟩
    rw [step_skip_emit state2 _ (wcoReset_pos state) (by norm_num)]

/-- Witness for C1 (amended), at the startup state in idle. -/
theorem claim_C1_witness :
    ((0 : Int) ≤ (⟨0, 0⟩ : ThrottleState).report_ovr_counter) ∧
    ((¬ ((realtimeThrottleStep STATE_IDLE ⟨0, 0⟩).wcoEmitted = true ∧
         (realtimeThrottleStep STATE_IDLE ⟨0, 0⟩).ovrEmitted = true)) ∧
     ((⟨0, 0⟩ : ThrottleState).report_wco_counter = 0 →
      (⟨0, 0⟩ : ThrottleState).report_ovr_counter = 0 →
      (realtimeThrottleStep STATE_IDLE ⟨0, 0⟩).wcoEmitted = true ∧
      (realtimeThrottleStep STATE_IDLE ⟨0, 0⟩).ovrEmitted = false ∧
      (realtimeThrottleStep STATE_IDLE
        (realtimeThrottleStep STATE_IDLE ⟨0, 0⟩).sys).ovrEmitted = true)) :=
  ⟨by decide, claim_C1_wco_arms_ovr STATE_IDLE STATE_IDLE ⟨0, 0⟩ (by decide)⟩

/-- C5 counterexample: a counter at zero does not decrement by one - on
the next call it is reset upward (here the work-offset counter jumps from
0 to 9 in idle), so the counters do not decrement by exactly one on every
invocation. -/
theorem claim_C5_counterexample :
    (realtimeThrottleStep STATE_IDLE ⟨0, 5⟩).sys.report_wco_counter = 9 ∧
    ¬ (realtimeThrottleStep STATE_IDLE ⟨0, 5⟩).sys.report_wco_counter =
        (⟨0, 5⟩ : ThrottleState).report_wco_counter - 1 := by
  decide

/-- C5 (amended).  Each of the two throttle counters decrements by
exactly one per invocation whenever it is positive on entry; a zero
counter is instead reset upward (to a refresh interval minus one, or to 1
by the cross-field arming); and starting from non-negative counters both
remain non-negative after every invocation. -/
theorem claim_C5_counters (state : Nat) (s : ThrottleState)
    (h1 : 0 ≤ s.report_wco_counter) (h2 : 0 ≤ s.report_ovr_counter) :
    (0 < s.report_wco_counter →
      (realtimeThrottleStep state s).sys.report_wco_counter =
        s.report_wco_counter - 1) ∧
    (0 < s.report_ovr_counter →
      (realtimeThrottleStep state s).sys.report_ovr_counter =
        s.report_ovr_counter - 1) ∧
    0 ≤ (realtimeThrottleStep state s).sys.report_wco_counter ∧
    0 ≤ (realtimeThrottleStep state s).sys.report_ovr_counter := by
  rcases lt_or_le 0 s.report_wco_counter with hw | hw
  · rcases lt_or_le 0 s.report_ovr_counter with ho | ho
    · rw [step_skip_skip state s hw ho]
      refine ⟨fun _ => rfl, fun _ => rfl, by dsimp only; omega, by dsimp only; omega⟩
    · rw [step_skip_emit state s hw (by omega)]
      refine ⟨fun _ => rfl, fun h => absurd h (by omega), by dsimp only; omega, ?_⟩
      dsimp only
      split <;> decide
  · have hw' : ¬ s.report_wco_counter > 0 := by omega
    rcases eq_or_lt_of_le h2 with ho | ho
    · rw [step_emit_armed state s hw' ho.symm]
      refine ⟨fun h => absurd h (by omega), fun h => absurd h (by omega),
        le_of_lt (wcoReset_pos state), by dsimp only; omega⟩
    · rw [step_emit_skip state s hw' ho]
      exact ⟨fun h => absurd h (by omega), fun _ => rfl,
        le_of_lt (wcoReset_pos state), by dsimp only; omega⟩

/-- Witness for C5 (amended), with both counters positive in idle. -/
theorem claim_C5_witness :
    ((0 : Int) ≤ (⟨3, 4⟩ : ThrottleState).report_wco_counter) ∧
    ((0 : Int) ≤ (⟨3, 4⟩ : ThrottleState).report_ovr_counter) ∧
    ((0 < (⟨3, 4⟩ : ThrottleState).report_wco_counter →
      (realtimeThrottleStep STATE_IDLE ⟨3, 4⟩).sys.report_wco_counter =
        (⟨3, 4⟩ : ThrottleState).report_wco_counter - 1) ∧
     (0 < (⟨3, 4⟩ : ThrottleState).report_ovr_counter →
      (realtimeThrottleStep STATE_IDLE ⟨3, 4⟩).sys.report_ovr_counter =
        (⟨3, 4⟩ : ThrottleState).report_ovr_counter - 1) ∧
     0 ≤ (realtimeThrottleStep STATE_IDLE ⟨3, 4⟩).sys.report_wco_counter ∧
     0 ≤ (realtimeThrottleStep STATE_IDLE ⟨3, 4⟩).sys.report_ovr_counter) :=
  ⟨by decide, by decide, claim_C5_counters STATE_IDLE ⟨3, 4⟩ (by decide) (by decide)⟩

/-- C6 counterexample: with a counter at zero, a busy state (Run) resets
the work-offset counter to 29 and the override counter to 19, while idle
resets them to 9 - the busy intervals are LARGER, so a busy controller
refreshes both fields less often, not more often (the source comments on
report.cpp lines 651 and 664 call the busy branch the "slow refresh"). -/
theorem claim_C6_counterexample :
    (realtimeThrottleStep STATE_CYCLE ⟨0, 5⟩).sys.report_wco_counter = 29 ∧
    (realtimeThrottleStep STATE_IDLE ⟨0, 5⟩).sys.report_wco_counter = 9 ∧
    (realtimeThrottleStep STATE_CYCLE ⟨5, 0⟩).sys.report_ovr_counter = 19 ∧
    (realtimeThrottleStep STATE_IDLE ⟨5, 0⟩).sys.report_ovr_counter = 9 ∧
    (29 : Int) > 9 ∧ (19 : Int) > 9 := by
  decide

/-- C6 (amended).  When the work-offset counter reaches zero the field is
emitted and the counter is reset to the busy or idle refresh interval
minus one, selected by the Homing/Run/Hold/Jog/Door mask; likewise for
the override counter, provided the work-offset field was not emitted in
the same call (otherwise the arming rule defers the override field by one
call).  The busy interval exceeds the idle interval for both fields, so
busy states refresh each field LESS often - the "slow refresh" of the
source comments - not more often as the claim states. -/
theorem claim_C6_zero_resets (state : Nat) (s : ThrottleState)
    (hwco : s.report_wco_counter = 0) (hovrnn : 0 ≤ s.report_ovr_counter) :
    ((realtimeThrottleStep state s).wcoEmitted = true ∧
     (realtimeThrottleStep state s).sys.report_wco_counter =
       (if isBusyState state then (REPORT_WCO_REFRESH_BUSY_COUNT : Int)
        else (REPORT_WCO_REFRESH_IDLE_COUNT : Int)) - 1) ∧
    (∀ s2 : ThrottleState, s2.report_ovr_counter = 0 → 0 < s2.report_wco_counter →
      (realtimeThrottleStep state s2).ovrEmitted = true ∧
      (realtimeThrottleStep state s2).sys.report_ovr_counter =
        (if isBusyState state then (REPORT_OVR_REFRESH_BUSY_COUNT : Int)
         else (REPORT_OVR_REFRESH_IDLE_COUNT : Int)) - 1) ∧
    (REPORT_WCO_REFRESH_IDLE_COUNT : Int) - 1 <
      (REPORT_WCO_REFRESH_BUSY_COUNT : Int) - 1 ∧
    (REPORT_OVR_REFRESH_IDLE_COUNT : Int) - 1 <
      (REPORT_OVR_REFRESH_BUSY_COUNT : Int) - 1 := by
  refine ⟨?_, fun s2 hovr hwco2 => ?_, by decide, by decide⟩
  · have hw' : ¬ s.report_wco_counter > 0 := by omega
    rcases eq_or_lt_of_le hovrnn with ho | ho
    · rw [step_emit_armed state s hw' ho.symm]
      refine ⟨rfl, ?_⟩
      dsimp only
      split_ifs <;> rfl
    · rw [step_emit_skip state s hw' ho]
      refine ⟨rfl, ?_⟩
      dsimp only
      split_ifs <;> rfl
  · rw [step_skip_emit state s2 hwco2 (by omega)]
    refine ⟨rfl, ?_⟩
    dsimp only
    split_ifs <;> rfl

/-- Witness for C6 (amended), in the Run state. -/
theorem claim_C6_witness :
    ((⟨0, 7⟩ : ThrottleState).report_wco_counter = 0) ∧
    ((0 : Int) ≤ (⟨0, 7⟩ : ThrottleState).report_ovr_counter) ∧
    (((realtimeThrottleStep STATE_CYCLE ⟨0, 7⟩).wcoEmitted = true ∧
      (realtimeThrottleStep STATE_CYCLE ⟨0, 7⟩).sys.report_wco_counter =
        (if isBusyState STATE_CYCLE then (REPORT_WCO_REFRESH_BUSY_COUNT : Int)
         else (REPORT_WCO_REFRESH_IDLE_COUNT : Int)) - 1) ∧
     (∀ s2 : ThrottleState, s2.report_ovr_counter = 0 → 0 < s2.report_wco_counter →
       (realtimeThrottleStep STATE_CYCLE s2).ovrEmitted = true ∧
       (realtimeThrottleStep STATE_CYCLE s2).sys.report_ovr_counter =
         (if isBusyState STATE_CYCLE then (REPORT_OVR_REFRESH_BUSY_COUNT : Int)
          else (REPORT_OVR_REFRESH_IDLE_COUNT : Int)) - 1) ∧
     (REPORT_WCO_REFRESH_IDLE_COUNT : Int) - 1 <
       (REPORT_WCO_REFRESH_BUSY_COUNT : Int) - 1 ∧
     (REPORT_OVR_REFRESH_IDLE_COUNT : Int) - 1 <
       (REPORT_OVR_REFRESH_BUSY_COUNT : Int) - 1) :=
  ⟨rfl, by decide, claim_C6_zero_resets STATE_CYCLE ⟨0, 7⟩ rfl (by decide)⟩

theorem throttleTraj_succ_idle (n : Nat) :
    throttleTraj STATE_IDLE (n + 1) = idleCycle (n % 10) := by
  induction n with
  | zero => decide
  | succ n ih =>
    have hstep : ∀ j, j < 10 →
        (realtimeThrottleStep STATE_IDLE (idleCycle j)).sys =
          idleCycle ((j + 1) % 10) := by decide
    show (realtimeThrottleStep STATE_IDLE (throttleTraj STATE_IDLE (n + 1))).sys = _
    rw [ih, hstep (n % 10) (Nat.mod_lt _ (by omega))]
    congr 1
    omega

/-- C4.  Starting from the startup state (both counters zero) with the
controller idle throughout and override reporting enabled, the override
field is emitted exactly once every `REPORT_OVR_REFRESH_IDLE_COUNT`
calls: precisely on the calls whose index is congruent to 1 modulo that
interval. -/
theorem claim_C4_ovr_period (n : Nat) :
    ovrEmittedAt STATE_IDLE n =
      decide (n % REPORT_OVR_REFRESH_IDLE_COUNT = 1) := by
  cases n with
  | zero => decide
  | succ n =>
    unfold ovrEmittedAt
    rw [throttleTraj_succ_idle n]
    have h : ∀ j, j < 10 →
        (realtimeThrottleStep STATE_IDLE (idleCycle j)).ovrEmitted =
          decide ((j + 1) % 10 = 1) := by decide
    rw [h (n % 10) (Nat.mod_lt _ (by omega)), decide_eq_decide]
    unfold REPORT_OVR_REFRESH_IDLE_COUNT
    omega

end Grblesp
